import Mathlib

/-!
Verification of the alert decision and cross-channel synchronization core of
the `the-eye` fire-detection pipeline.

The embedding below translates, from the Python source:
  * `app/pipeline.py`   — `FireDetectionPipeline._should_alert` plus the
    on-trigger state update in `FireDetectionPipeline.run`, and
    `handle_telegram_callback`;
  * `app/web_notifier.py` — `AlertStore` (`add_alert`, `get_pending_alerts`,
    `get_all_alerts`, `update_status`) and the Flask routes `get_alerts` and
    `update_alert`;
  * `app/notifier.py`   — the callback-data parsing in
    `TelegramNotifier._handle_update`.

Modelling conventions:
  * Wall-clock instants (`time.time()`, a float) are modelled as simulated
    integer timestamps supplied with each decider call.
  * Python `int` values are `Int` (`consecutive_count` is a `Nat`: it starts
    at 0 and is only ever incremented or reset to 0, so its reachable values
    are exactly the naturals).
  * The mutex in `AlertStore` serializes all store operations, so the store
    is modelled as a value threaded through a sequence of operations.
  * JPEG/base64 image encoding and float formatting (`f"{conf:.2f}"`) are
    external I/O; images and formatted confidences are opaque strings.
  * `max(set(labels), key=labels.count)` iterates a Python `set`, whose
    iteration order over strings depends on randomized string hashing; the
    enumeration order of the distinct labels is therefore an explicit
    parameter `set_order`, quantified over all valid enumerations.
-/

namespace TheEye

/-! ## Alert decider: `FireDetectionPipeline._should_alert` + `run` -/

/-- Alert-related configuration, from `app/config.py`:
`consecutive_detections = int(os.getenv("CONSECUTIVE_DETECTIONS", "3"))` and
`alert_cooldown = int(os.getenv("ALERT_COOLDOWN", "30"))`.  Both are Python
ints and may be zero or negative. -/
structure DeciderConfig where
  consecutive_detections : Int
  alert_cooldown : Int
deriving DecidableEq

/-- Mutable decider state of `FireDetectionPipeline`:
`self.consecutive_count = 0` and `self.last_alert_time = 0.0`. -/
structure DeciderState where
  consecutive_count : Nat
  last_alert_time : Int
deriving DecidableEq

/-- Initial decider state set in `FireDetectionPipeline.__init__`. -/
def decider_init : DeciderState := ⟨0, 0⟩

/-- `FireDetectionPipeline._should_alert(has_detections)`: increments or
resets `consecutive_count`, then gates on the consecutive threshold and the
cooldown.  `now` is the simulated value of the `time.time()` call in the
cooldown check.  Returns the boolean result and the state as left by
`_should_alert` itself (which does not touch `last_alert_time`). -/
def should_alert (cfg : DeciderConfig) (s : DeciderState) (now : Int)
    (has_detections : Bool) : Bool × DeciderState :=
  if has_detections then
    let c := s.consecutive_count + 1
    if (c : Int) < cfg.consecutive_detections then
      (false, { s with consecutive_count := c })
    else if now - s.last_alert_time < cfg.alert_cooldown then
      (false, { s with consecutive_count := c })
    else
      (true, { s with consecutive_count := c })
  else
    (false, { s with consecutive_count := 0 })

/-- One decider call as the pipeline performs it: `_should_alert` followed by
the on-trigger update in `run` (`self.last_alert_time = time.time();
self.consecutive_count = 0`).  In `run` the update is guarded by
`should_alert and detections`, and a true `_should_alert` result already
requires `has_detections`, so the update fires exactly on a true result.
The simulated instant `now` stands for both `time.time()` calls of the
iteration. -/
def decider_step (cfg : DeciderConfig) (s : DeciderState) (now : Int)
    (has_detections : Bool) : Bool × DeciderState :=
  let r := should_alert cfg s now has_detections
  if r.1 then (true, { consecutive_count := 0, last_alert_time := now })
  else (false, r.2)

/-- Outputs of a sequence of decider calls; each entry of the call trace is
the simulated timestamp of the call together with the `has_detections`
input. -/
def run_decider (cfg : DeciderConfig) (s : DeciderState) :
    List (Int × Bool) → List Bool
  | [] => []
  | (t, d) :: rest =>
    (decider_step cfg s t d).1 :: run_decider cfg (decider_step cfg s t d).2 rest

/-- Decider state after processing a call trace. -/
def decider_after (cfg : DeciderConfig) (s : DeciderState) :
    List (Int × Bool) → DeciderState
  | [] => s
  | (t, d) :: rest => decider_after cfg (decider_step cfg s t d).2 rest

/-! ## Alert store: `app/web_notifier.py` -/

/-- The fields of `app/detector.py`'s `Detection` that the alert store and
notifiers consume.  `conf_str` is the formatted confidence
`f"{det.conf:.2f}"` (float formatting is external and kept opaque). -/
structure Detection where
  label : String
  conf_str : String
deriving DecidableEq

/-- The alert dict built by `AlertStore.add_alert`.  `image` is the opaque
base64 JPEG payload, `timestamp` the opaque `datetime.now().isoformat()`. -/
structure Alert where
  id : Int
  timestamp : String
  source : String
  label : String
  count : Nat
  confidences : List String
  image : String
  status : String
deriving DecidableEq

/-- `AlertStore.__init__`: `self.alerts = []`, `self._id_counter = 0`
(the lock is the serialization assumption of the embedding). -/
structure AlertStore where
  alerts : List Alert
  id_counter : Int
deriving DecidableEq

/-- A fresh `AlertStore()`. -/
def emptyStore : AlertStore := ⟨[], 0⟩

/-- Python `max(iterable, key=(fun b => labels.count b))` on a nonempty
enumeration: keeps the current maximum and replaces it only on a strictly
greater key, so the first element attaining the maximal key wins ties. -/
def pyMaxByCount (labels : List String) : List String → Option String
  | [] => none
  | x :: xs =>
    some (xs.foldl (fun b a => if labels.count b < labels.count a then a else b) x)

/-- The primary-label computation
`max(set(labels), key=labels.count)` shared by `AlertStore.add_alert` and
`TelegramNotifier.send_alert`.  `set_order` is the iteration order of
`set(labels)`, an arbitrary duplicate-free enumeration of the distinct
labels (Python string hashing is randomized, so no particular order is
guaranteed).  The `"fire"` default is unreachable for a valid nonempty
enumeration. -/
def primary_label (set_order labels : List String) : String :=
  match pyMaxByCount labels set_order with
  | some l => l
  | none => "fire"

/-- `set_order` is a possible iteration order of `set(labels)`: it
enumerates exactly the distinct members of `labels`, each once. -/
def ValidEnum (set_order labels : List String) : Prop :=
  set_order.Nodup ∧ ∀ x, x ∈ set_order ↔ x ∈ labels

instance (set_order labels : List String) :
    Decidable (ValidEnum set_order labels) := by
  unfold ValidEnum
  have : Decidable (∀ x, x ∈ set_order ↔ x ∈ labels) := by
    refine decidable_of_iff
      ((∀ x ∈ set_order, x ∈ labels) ∧ (∀ x ∈ labels, x ∈ set_order)) ?_
    constructor
    · rintro ⟨h1, h2⟩ x; exact ⟨h1 x, h2 x⟩
    · intro h; exact ⟨fun x hx => (h x).1 hx, fun x hx => (h x).2 hx⟩
  exact instDecidableAnd

/-- Spec-side definition (refinement target, from the spec's words, not from
the source): the most frequent label with ties broken by
first-seen-in-list order — the first element of `labels` whose
multiplicity is maximal. -/
def first_seen_mode_spec (labels : List String) : String :=
  match labels.find? (fun x => labels.all (fun y => labels.count y ≤ labels.count x)) with
  | some x => x
  | none => "fire"

/-- `AlertStore.add_alert(image, detections, source)`: bumps the id counter,
computes the primary label (`"fire"` when `detections` is empty), builds the
alert dict with status `"pending"`, appends it and returns the assigned id.
`image_b64` and `ts` stand for the externally produced base64 payload and
ISO timestamp. -/
def add_alert (s : AlertStore) (set_order : List String) (image_b64 : String)
    (detections : List Detection) (source ts : String) : Int × AlertStore :=
  let id_counter := s.id_counter + 1
  let alert_id := id_counter
  let lbl :=
    if detections.isEmpty then "fire"
    else primary_label set_order (detections.map Detection.label)
  let alert : Alert :=
    { id := alert_id
      timestamp := ts
      source := source
      label := lbl
      count := detections.length
      confidences := detections.map Detection.conf_str
      image := image_b64
      status := "pending" }
  (alert_id, { alerts := s.alerts ++ [alert], id_counter := id_counter })

/-- `AlertStore.get_pending_alerts`: the alerts whose status is
`"pending"`, in store order. -/
def get_pending (s : AlertStore) : List Alert :=
  s.alerts.filter (fun a => a.status == "pending")

/-- `AlertStore.get_all_alerts(limit=50)`: `self.alerts[-limit:][::-1]`.
For `limit = 0` the Python slice `alerts[-0:]` is `alerts[0:]`, the whole
list; for positive `limit` it is the last `min limit length` elements. -/
def get_all (s : AlertStore) (limit : Nat) : List Alert :=
  (if limit = 0 then s.alerts else s.alerts.drop (s.alerts.length - limit)).reverse

/-- The default value of `get_all_alerts`'s `limit` parameter. -/
def get_all_default_limit : Nat := 50

/-- `AlertStore.update_status` body: scan `self.alerts` in order, set the
status of the first alert whose id matches and return `True`; return
`False` when none matches.  The scan never raises. -/
def update_status_list (alert_id : Int) (status : String) :
    List Alert → Bool × List Alert
  | [] => (false, [])
  | a :: rest =>
    if a.id = alert_id then (true, { a with status := status } :: rest)
    else
      ((update_status_list alert_id status rest).1,
        a :: (update_status_list alert_id status rest).2)

/-- `AlertStore.update_status(alert_id, status) -> bool`. -/
def update_status (s : AlertStore) (alert_id : Int) (status : String) :
    Bool × AlertStore :=
  ((update_status_list alert_id status s.alerts).1,
    { s with alerts := (update_status_list alert_id status s.alerts).2 })

/-- The `GET /api/alerts` route `get_alerts` in `WebNotifier._setup_routes`:
`status=pending` reads the pending alerts, anything else reads
`get_all_alerts()` at its default limit of 50. -/
def get_alerts_route (s : AlertStore) (status_filter : String) : List Alert :=
  if status_filter == "pending" then get_pending s
  else get_all s get_all_default_limit

/-- The `POST /api/alerts/<int:alert_id>` route `update_alert`: a missing or
invalid body status is rejected with HTTP 400 before the store is touched;
otherwise `update_status` runs and an unknown id yields HTTP 404.  The
result pairs the store with the HTTP status code. -/
def update_alert_route (s : AlertStore) (alert_id : Int)
    (body_status : Option String) : AlertStore × Nat :=
  match body_status with
  | none => (s, 400)
  | some st =>
    if st = "confirmed" ∨ st = "rejected" then
      ((update_status s alert_id st).2,
        if (update_status s alert_id st).1 then 200 else 404)
    else (s, 400)

/-! ## Telegram callback bridge: `app/pipeline.py` + `app/notifier.py` -/

/-- `handle_telegram_callback(alert_id, action)` from
`FireDetectionPipeline.__init__`: maps `action == "confirm"` to status
`"confirmed"` and every other action string to `"rejected"`, then applies
`update_status` to the web store.  Returns the updated store and the
`success` flag. -/
def handle_telegram_callback (s : AlertStore) (alert_id : Int)
    (action : String) : AlertStore × Bool :=
  let status := if action = "confirm" then "confirmed" else "rejected"
  ((update_status s alert_id status).2, (update_status s alert_id status).1)

/-- Python `callback_data.split(sep, 1)` restricted to the guarded case
`sep in callback_data`: splits at the first occurrence of `sep`.  Returns
`none` when `sep` does not occur (in which case `_handle_update` does
nothing). -/
def splitFirst (sep : Char) : List Char → Option (List Char × List Char)
  | [] => none
  | c :: cs =>
    if c = sep then some ([], cs)
    else
      match splitFirst sep cs with
      | none => none
      | some p => some (c :: p.1, p.2)

/-- Decimal digit run to its value (helper for the `int(...)` model). -/
def digitsToNat : List Char → Option Nat
  | [] => none
  | cs =>
    if cs.all Char.isDigit then
      some (cs.foldl (fun n c => 10 * n + (c.toNat - 48)) 0)
    else none

/-- Model of the Python builtin `int(str)` on the id substrings this system
handles: an optional leading minus sign followed by decimal digits; every
other string raises `ValueError` (`none`).  Surrounding whitespace, a plus
sign and underscore digit grouping, which `int` also accepts, are not
modelled — the tokens produced and consumed here never contain them. -/
def py_int_of_string (str : String) : Option Int :=
  match str.toList with
  | '-' :: rest => (digitsToNat rest).map (fun n => -(n : Int))
  | cs => (digitsToNat cs).map (fun n => (n : Int))

/-- The callback-data handling of `TelegramNotifier._handle_update` composed
with the registered `handle_telegram_callback`: require an underscore, split
once, parse the id (a `ValueError` is swallowed and the event dropped), then
invoke the callback.  Returns the store and, when the callback ran,
the parsed id with the `update_status` success flag. -/
def handle_callback_data (s : AlertStore) (callback_data : String) :
    AlertStore × Option (Int × Bool) :=
  match splitFirst '_' callback_data.toList with
  | none => (s, none)
  | some p =>
    match py_int_of_string (String.mk p.2) with
    | none => (s, none)
    | some alert_id =>
      ((handle_telegram_callback s alert_id (String.mk p.1)).1,
        some (alert_id, (handle_telegram_callback s alert_id (String.mk p.1)).2))

/-! ## Operation sequences over the store -/

/-- Arguments of one `add_alert` call (with its set-iteration order). -/
structure AddArgs where
  set_order : List String
  image : String
  detections : List Detection
  source : String
  timestamp : String

/-- A sequence of `add_alert` calls (the lock serializes them). -/
def add_many (s : AlertStore) (args : List AddArgs) : AlertStore :=
  args.foldl
    (fun st a => (add_alert st a.set_order a.image a.detections a.source a.timestamp).2) s

/-- The operations through which the running system touches the store: the
pipeline's `add_alert` on trigger, the dashboard's validated
`POST /api/alerts/<id>` route, and the Telegram callback bridge. -/
inductive SysOp where
  | add (set_order : List String) (image : String) (detections : List Detection)
      (source ts : String)
  | webUpdate (alert_id : Int) (body_status : Option String)
  | botCallback (callback_data : String)

/-- Apply one system operation to the store. -/
def apply_sys_op (s : AlertStore) : SysOp → AlertStore
  | .add so img dets src ts => (add_alert s so img dets src ts).2
  | .webUpdate aid st => (update_alert_route s aid st).1
  | .botCallback data => (handle_callback_data s data).1

/-- Apply a sequence of system operations. -/
def apply_sys_ops (s : AlertStore) (ops : List SysOp) : AlertStore :=
  ops.foldl apply_sys_op s

/-! ## Invariants used by the proofs -/

/-- The trailing `c` entries of the processed tr all carry a true input:
the meaning of `consecutive_count = c`. -/
def TrailCount (hist : List (Int × Bool)) (c : Nat) : Prop :=
  c ≤ hist.length ∧ ∀ p ∈ hist.drop (hist.length - c), p.2 = true

/-- Store invariant maintained by every system operation: ids never exceed
the counter, ids are pairwise distinct, and every status is one of
`"pending"`, `"confirmed"`, `"rejected"`. -/
def StoreInv (s : AlertStore) : Prop :=
  (∀ a ∈ s.alerts, a.id ≤ s.id_counter) ∧
    (s.alerts.map Alert.id).Nodup ∧
    ∀ a ∈ s.alerts, a.status = "pending" ∨ a.status = "confirmed" ∨ a.status = "rejected"

/-- No alert with id `aid` is pending in `s`. -/
def IdResolved (s : AlertStore) (aid : Int) : Prop :=
  ∀ a ∈ s.alerts, a.id = aid → a.status ≠ "pending"

/-! ## Decider lemmas -/

theorem decider_step_false (cfg : DeciderConfig) (s : DeciderState) (t : Int) :
    decider_step cfg s t false = (false, { s with consecutive_count := 0 }) := by
  simp [decider_step, should_alert]

theorem decider_step_true_cases (cfg : DeciderConfig) (s : DeciderState) (t : Int) :
    (cfg.consecutive_detections ≤ (s.consecutive_count : Int) + 1 ∧
        cfg.alert_cooldown ≤ t - s.last_alert_time ∧
        decider_step cfg s t true = (true, ⟨0, t⟩)) ∨
      ((cfg.consecutive_detections > (s.consecutive_count : Int) + 1 ∨
          cfg.alert_cooldown > t - s.last_alert_time) ∧
        decider_step cfg s t true =
          (false, { s with consecutive_count := s.consecutive_count + 1 })) := by
  by_cases h1 : ((s.consecutive_count : Int) + 1) < cfg.consecutive_detections
  · right
    refine ⟨Or.inl (by omega), ?_⟩
    simp [decider_step, should_alert, if_pos h1]
  · by_cases h2 : t - s.last_alert_time < cfg.alert_cooldown
    · right
      refine ⟨Or.inr (by omega), ?_⟩
      simp [decider_step, should_alert, if_neg h1, if_pos h2]
    · left
      refine ⟨by omega, by omega, ?_⟩
      simp [decider_step, should_alert, if_neg h1, if_neg h2]

theorem decider_step_fire (cfg : DeciderConfig) (s : DeciderState) (t : Int) (d : Bool)
    (h : (decider_step cfg s t d).1 = true) :
    d = true ∧ cfg.consecutive_detections ≤ (s.consecutive_count : Int) + 1 ∧
      cfg.alert_cooldown ≤ t - s.last_alert_time ∧
      (decider_step cfg s t d).2 = ⟨0, t⟩ := by
  cases d with
  | false => rw [decider_step_false] at h; cases h
  | true =>
    refine ⟨rfl, ?_⟩
    rcases decider_step_true_cases cfg s t with ⟨h1, h2, heq⟩ | ⟨_, heq⟩
    · exact ⟨h1, h2, by rw [heq]⟩
    · rw [heq] at h; cases h

theorem decider_step_no_fire_true (cfg : DeciderConfig) (s : DeciderState) (t : Int)
    (h : (decider_step cfg s t true).1 = false) :
    (decider_step cfg s t true).2 = { s with consecutive_count := s.consecutive_count + 1 } := by
  rcases decider_step_true_cases cfg s t with ⟨_, _, heq⟩ | ⟨_, heq⟩
  · rw [heq] at h; cases h
  · rw [heq]

theorem decider_step_last (cfg : DeciderConfig) (s : DeciderState) (t : Int) (d : Bool) :
    (decider_step cfg s t d).2.last_alert_time = s.last_alert_time ∨
      (decider_step cfg s t d).2.last_alert_time = t := by
  cases d with
  | false => rw [decider_step_false]; left; rfl
  | true =>
    rcases decider_step_true_cases cfg s t with ⟨_, _, heq⟩ | ⟨_, heq⟩
    · right; rw [heq]
    · left; rw [heq]

theorem trailCount_zero (hist : List (Int × Bool)) : TrailCount hist 0 := by
  refine ⟨Nat.zero_le _, fun p hp => ?_⟩
  rw [Nat.sub_zero, List.drop_length] at hp
  cases hp

theorem trailCount_succ (hist : List (Int × Bool)) (c : Nat) (t : Int)
    (h : TrailCount hist c) : TrailCount (hist ++ [(t, true)]) (c + 1) := by
  obtain ⟨hc, hall⟩ := h
  constructor
  · simp; omega
  · intro p hp
    have hlen : (hist ++ [(t, true)]).length = hist.length + 1 := by simp
    rw [hlen] at hp
    have heq : hist.length + 1 - (c + 1) = hist.length - c := by omega
    rw [heq, List.drop_append_of_le_length (by omega)] at hp
    rcases List.mem_append.mp hp with hmem | hmem
    · exact hall p hmem
    · simp at hmem; rw [hmem]

theorem trail_step (cfg : DeciderConfig) (s : DeciderState) (t : Int) (d : Bool)
    (hist : List (Int × Bool)) (h : TrailCount hist s.consecutive_count) :
    TrailCount (hist ++ [(t, d)]) ((decider_step cfg s t d).2.consecutive_count) := by
  cases d with
  | false => rw [decider_step_false]; exact trailCount_zero _
  | true =>
    rcases Bool.eq_false_or_eq_true (decider_step cfg s t true).1 with hb | hb
    · rw [(decider_step_fire cfg s t true hb).2.2.2]
      exact trailCount_zero _
    · rw [decider_step_no_fire_true cfg s t hb]
      exact trailCount_succ hist s.consecutive_count t h

theorem trail_invariant (cfg : DeciderConfig) :
    ∀ (l hist : List (Int × Bool)) (s : DeciderState),
      TrailCount hist s.consecutive_count →
      TrailCount (hist ++ l) ((decider_after cfg s l).consecutive_count)
  | [], hist, s, h => by simpa [decider_after] using h
  | (t, d) :: rest, hist, s, h => by
    have hstep := trail_step cfg s t d hist h
    have ih := trail_invariant cfg rest (hist ++ [(t, d)]) (decider_step cfg s t d).2 hstep
    simpa [decider_after, List.append_assoc] using ih

theorem decider_after_append (cfg : DeciderConfig) :
    ∀ (l1 l2 : List (Int × Bool)) (s : DeciderState),
      decider_after cfg s (l1 ++ l2) = decider_after cfg (decider_after cfg s l1) l2
  | [], _, _ => rfl
  | (t, d) :: rest, l2, s => by
    simp only [List.cons_append, decider_after]
    exact decider_after_append cfg rest l2 (decider_step cfg s t d).2

theorem run_decider_length (cfg : DeciderConfig) :
    ∀ (l : List (Int × Bool)) (s : DeciderState), (run_decider cfg s l).length = l.length
  | [], _ => rfl
  | (t, d) :: rest, s => by
    simp only [run_decider, List.length_cons, run_decider_length cfg rest]

theorem run_decider_getElem (cfg : DeciderConfig) :
    ∀ (l : List (Int × Bool)) (s : DeciderState) (i : Nat) (hi : i < l.length)
      (hi' : i < (run_decider cfg s l).length),
      (run_decider cfg s l)[i] =
        (decider_step cfg (decider_after cfg s (l.take i)) l[i].1 l[i].2).1
  | (t, d) :: rest, s, 0, _, _ => by simp [run_decider, decider_after]
  | (t, d) :: rest, s, i + 1, hi, hi' => by
    have hrest : i < rest.length := by simpa using hi
    have hrest' : i < (run_decider cfg (decider_step cfg s t d).2 rest).length := by
      rw [run_decider_length]; exact hrest
    simp only [run_decider, List.getElem_cons_succ, List.take_succ_cons, decider_after]
    exact run_decider_getElem cfg rest (decider_step cfg s t d).2 i hrest hrest'

theorem decider_after_take_succ (cfg : DeciderConfig) (l : List (Int × Bool))
    (s : DeciderState) (i : Nat) (hi : i < l.length) :
    decider_after cfg s (l.take (i + 1)) =
      (decider_step cfg (decider_after cfg s (l.take i)) l[i].1 l[i].2).2 := by
  rw [List.take_succ, List.getElem?_eq_getElem hi]
  rw [decider_after_append]
  rfl

theorem last_alert_time_ge (cfg : DeciderConfig) :
    ∀ (l : List (Int × Bool)) (s : DeciderState) (T : Int),
      T ≤ s.last_alert_time → (∀ p ∈ l, T ≤ p.1) →
      T ≤ (decider_after cfg s l).last_alert_time
  | [], _, _, hT, _ => hT
  | (t, d) :: rest, s, T, hT, hl => by
    have hstep : T ≤ (decider_step cfg s t d).2.last_alert_time := by
      rcases decider_step_last cfg s t d with h | h
      · rw [h]; exact hT
      · rw [h]; exact hl (t, d) (List.mem_cons_self _ _)
    exact last_alert_time_ge cfg rest (decider_step cfg s t d).2 T hstep
      (fun p hp => hl p (List.mem_cons_of_mem _ hp))

/-! ## Claim C1 -/

/-- C1: for every finite sequence of inputs fed one per call to the decider
(`_should_alert` together with `run`'s on-trigger update), whenever a call
returns true, that call's input and the immediately preceding inputs form an
unbroken run of at least `consecutive_detections` true values with no
intervening false since the last reset of the counter: there is a window of
`k ≥ consecutive_detections` trailing entries of the processed prefix, all
carrying a true input. -/
theorem consecutive_run_before_alert (cfg : DeciderConfig)
    (tr : List (Int × Bool)) (i : Nat)
    (htrue : (run_decider cfg decider_init tr)[i]? = some true) :
    ∃ k : Nat, 1 ≤ k ∧ cfg.consecutive_detections ≤ (k : Int) ∧ k ≤ i + 1 ∧
      ∀ p ∈ (tr.take (i + 1)).drop (i + 1 - k), p.2 = true := by
  obtain ⟨hlen, hget⟩ := List.getElem?_eq_some.mp htrue
  have hi : i < tr.length := by rw [run_decider_length] at hlen; exact hlen
  rw [run_decider_getElem cfg tr decider_init i hi hlen] at hget
  obtain ⟨hd, hthr, -, -⟩ := decider_step_fire cfg _ _ _ hget
  set c := (decider_after cfg decider_init (tr.take i)).consecutive_count with hc
  have htrail : TrailCount (tr.take i) c := by
    have h0 : TrailCount ([] : List (Int × Bool)) decider_init.consecutive_count :=
      trailCount_zero []
    have := trail_invariant cfg (tr.take i) [] decider_init h0
    simpa using this
  have hclen : c ≤ i := by
    have := htrail.1
    rw [List.length_take] at this
    omega
  refine ⟨c + 1, by omega, ?_, by omega, ?_⟩
  · push_cast
    exact hthr
  · intro p hp
    simp only [List.take_succ, List.getElem?_eq_getElem hi, Option.toList_some] at hp
    have hsub : i + 1 - (c + 1) = i - c := by omega
    rw [hsub, List.drop_append_of_le_length (by rw [List.length_take]; omega)] at hp
    rcases List.mem_append.mp hp with hmem | hmem
    · apply htrail.2
      have hlt : (tr.take i).length - c = i - c := by rw [List.length_take]; omega
      rw [hlt]
      exact hmem
    · simp only [List.mem_singleton] at hmem
      rw [hmem]
      exact hd

/-- Witness for C1 at threshold 3, cooldown 30 and three consecutive true
inputs: the call at index 2 fires and is preceded by a run of 3 trues. -/
theorem consecutive_run_before_alert_witness :
    (run_decider ⟨3, 30⟩ decider_init
        [(1000, true), (1001, true), (1002, true)])[2]? = some true ∧
      (∃ k : Nat, 1 ≤ k ∧ (3 : Int) ≤ (k : Int) ∧ k ≤ 2 + 1 ∧
        ∀ p ∈ ((([(1000, true), (1001, true), (1002, true)] :
            List (Int × Bool))).take (2 + 1)).drop (2 + 1 - k), p.2 = true) :=
  ⟨by decide, consecutive_run_before_alert ⟨3, 30⟩
    [(1000, true), (1001, true), (1002, true)] 2 (by decide)⟩

/-! ## Claim C2 -/

/-- C2: over any decider tr with nondecreasing simulated timestamps, if
two distinct calls both return true then the simulated time elapsed between
them is at least `alert_cooldown`, regardless of how the consecutive counter
behaves between them. -/
theorem cooldown_between_alerts (cfg : DeciderConfig) (tr : List (Int × Bool))
    (hmono : tr.Pairwise (fun p q => p.1 ≤ q.1)) (i j : Nat) (hij : i < j)
    (houti : (run_decider cfg decider_init tr)[i]? = some true)
    (houtj : (run_decider cfg decider_init tr)[j]? = some true)
    (ei ej : Int × Bool) (hei : tr[i]? = some ei) (hej : tr[j]? = some ej) :
    cfg.alert_cooldown ≤ ej.1 - ei.1 := by
  obtain ⟨hleni, hgeti⟩ := List.getElem?_eq_some.mp houti
  obtain ⟨hlenj, hgetj⟩ := List.getElem?_eq_some.mp houtj
  have hi : i < tr.length := by rw [run_decider_length] at hleni; exact hleni
  have hj : j < tr.length := by rw [run_decider_length] at hlenj; exact hlenj
  obtain ⟨hilen, heic⟩ := List.getElem?_eq_some.mp hei
  obtain ⟨hjlen, hejc⟩ := List.getElem?_eq_some.mp hej
  rw [run_decider_getElem cfg tr decider_init i hi hleni] at hgeti
  rw [run_decider_getElem cfg tr decider_init j hj hlenj] at hgetj
  obtain ⟨-, -, -, hstate_i⟩ := decider_step_fire _ _ _ _ hgeti
  obtain ⟨-, -, hcool_j, -⟩ := decider_step_fire _ _ _ _ hgetj
  have hsucc : decider_after cfg decider_init (tr.take (i + 1)) = ⟨0, tr[i].1⟩ := by
    rw [decider_after_take_succ cfg tr decider_init i hi, hstate_i]
  have hdecomp : tr.take j = tr.take (i + 1) ++ (tr.drop (i + 1)).take (j - (i + 1)) := by
    have h := List.take_add tr (i + 1) (j - (i + 1))
    rwa [Nat.add_sub_cancel' (by omega : i + 1 ≤ j)] at h
  have hmid : ∀ p ∈ (tr.drop (i + 1)).take (j - (i + 1)), tr[i].1 ≤ p.1 := by
    intro p hp
    have hp' : p ∈ tr.drop (i + 1) := List.take_subset _ _ hp
    have hsplit := hmono
    rw [← List.take_append_drop (i + 1) tr, List.pairwise_append] at hsplit
    refine hsplit.2.2 tr[i] ?_ p hp'
    have hlt : i < (tr.take (i + 1)).length := by
      rw [List.length_take]
      omega
    have hteq : (tr.take (i + 1))[i] = tr[i] := List.getElem_take ..
    rw [← hteq]
    exact List.getElem_mem ..
  have hge : tr[i].1 ≤ (decider_after cfg decider_init (tr.take j)).last_alert_time := by
    rw [hdecomp, decider_after_append, hsucc]
    exact last_alert_time_ge cfg _ _ _ (le_refl _) hmid
  rw [heic] at hge
  rw [hejc] at hcool_j
  omega

/-- Witness for C2 at threshold 1, cooldown 2 and the tr
`[(10, true), (12, true)]`: both calls fire and their timestamps are exactly
the cooldown apart. -/
theorem cooldown_between_alerts_witness :
    ([((10 : Int), true), (12, true)] : List (Int × Bool)).Pairwise
        (fun p q => p.1 ≤ q.1) ∧
      (run_decider ⟨1, 2⟩ decider_init [(10, true), (12, true)])[0]? = some true ∧
      (run_decider ⟨1, 2⟩ decider_init [(10, true), (12, true)])[1]? = some true ∧
      (2 : Int) ≤ (12, true).1 - ((10 : Int), true).1 :=
  ⟨by decide, by decide, by decide,
    cooldown_between_alerts ⟨1, 2⟩ [(10, true), (12, true)] (by decide) 0 1
      (by decide) (by decide) (by decide) (10, true) (12, true) (by decide) (by decide)⟩

/-! ## Claim C3 -/

/-- C3: on a decider call with a true input whose incremented count reaches
the consecutive threshold and whose cooldown has elapsed, the call (the
`_should_alert` check together with `run`'s on-trigger update) sets
`last_alert_time` to `now`, resets `consecutive_count` to 0, and returns
true. -/
theorem alert_fire_updates_state (cfg : DeciderConfig) (s : DeciderState) (now : Int)
    (hthr : cfg.consecutive_detections ≤ (s.consecutive_count : Int) + 1)
    (hcool : cfg.alert_cooldown ≤ now - s.last_alert_time) :
    decider_step cfg s now true = (true, ⟨0, now⟩) := by
  rcases decider_step_true_cases cfg s now with ⟨-, -, heq⟩ | ⟨hbad, -⟩
  · exact heq
  · rcases hbad with h | h <;> omega

/-- Witness for C3: threshold 3, cooldown 30, count 2, elapsed time 1000. -/
theorem alert_fire_updates_state_witness :
    ((3 : Int) ≤ ((2 : Nat) : Int) + 1) ∧ ((30 : Int) ≤ 1000 - 0) ∧
      decider_step ⟨3, 30⟩ ⟨2, 0⟩ 1000 true = (true, ⟨0, 1000⟩) :=
  ⟨by decide, by decide, alert_fire_updates_state ⟨3, 30⟩ ⟨2, 0⟩ 1000 (by decide) (by decide)⟩

/-! ## Claim C8 -/

/-- C8: when `consecutive_detections` is configured to 0 or a negative
integer (the config parses any int and the decider treats it as valid),
every decider call with a true input returns true exactly when the cooldown
has elapsed, and false only when it has not. -/
theorem nonpositive_threshold_cooldown_only (cfg : DeciderConfig)
    (hthr : cfg.consecutive_detections ≤ 0) (s : DeciderState) (now : Int) :
    (decider_step cfg s now true).1 =
      decide (cfg.alert_cooldown ≤ now - s.last_alert_time) := by
  rcases decider_step_true_cases cfg s now with ⟨-, h2, heq⟩ | ⟨hbad, heq⟩
  · rw [heq]
    exact (decide_eq_true h2).symm
  · rcases hbad with h | h
    · omega
    · rw [heq]
      exact (decide_eq_false (by omega)).symm

/-- Witness for C8: threshold 0, cooldown 30, a call at count 0; with elapsed
time 5 the call reports exactly the (failed) cooldown check. -/
theorem nonpositive_threshold_cooldown_only_witness :
    ((0 : Int) ≤ 0) ∧
      (decider_step ⟨0, 30⟩ ⟨0, 0⟩ 5 true).1 = decide ((30 : Int) ≤ 5 - 0) :=
  ⟨by decide, nonpositive_threshold_cooldown_only ⟨0, 30⟩ (by decide) ⟨0, 0⟩ 5⟩

/-! ## Store lemmas -/

theorem update_status_list_spec (aid : Int) (st : String) :
    ∀ l : List Alert,
      ((∀ a ∈ l, a.id ≠ aid) → update_status_list aid st l = (false, l)) ∧
      ((∃ a ∈ l, a.id = aid) →
        (update_status_list aid st l).1 = true ∧
        ∃ k, ∃ hk : k < l.length,
          (l.get ⟨k, hk⟩).id = aid ∧
          (∀ m (hm : m < l.length), m < k → (l.get ⟨m, hm⟩).id ≠ aid) ∧
          (update_status_list aid st l).2 =
            l.set k { l.get ⟨k, hk⟩ with status := st })
  | [] => ⟨fun _ => rfl, fun h => absurd h (by simp)⟩
  | a :: rest => by
    by_cases ha : a.id = aid
    · refine ⟨fun hall => absurd ha (hall a (List.mem_cons_self _ _)), fun _ => ?_⟩
      refine ⟨by simp [update_status_list, if_pos ha], 0, by simp, ha, ?_, ?_⟩
      · intro m hm hmk
        exact absurd hmk (by omega)
      · simp [update_status_list, if_pos ha, List.set_cons_zero]
    · have IH := update_status_list_spec aid st rest
      constructor
      · intro hall
        have hrest := IH.1 (fun b hb => hall b (List.mem_cons_of_mem _ hb))
        simp [update_status_list, if_neg ha, hrest]
      · intro hex
        have hexr : ∃ b ∈ rest, b.id = aid := by
          rcases hex with ⟨b, hb, hbid⟩
          rcases List.mem_cons.mp hb with rfl | hb'
          · exact absurd hbid ha
          · exact ⟨b, hb', hbid⟩
        obtain ⟨h1, k, hk, hkid, hfirst, heq⟩ := IH.2 hexr
        refine ⟨by simp [update_status_list, if_neg ha, h1],
          k + 1, by simpa using Nat.succ_lt_succ hk, by simpa using hkid, ?_, ?_⟩
        · intro m hm hmk
          cases m with
          | zero => simpa using ha
          | succ m' =>
            have hm' : m' < rest.length := by simpa using hm
            have := hfirst m' hm' (by omega)
            simpa using this
        · simp [update_status_list, if_neg ha, heq, List.set_cons_succ]

theorem update_status_list_map_id (aid : Int) (st : String) :
    ∀ l : List Alert, (update_status_list aid st l).2.map Alert.id = l.map Alert.id
  | [] => rfl
  | a :: rest => by
    by_cases ha : a.id = aid
    · simp [update_status_list, if_pos ha]
    · simp [update_status_list, if_neg ha, update_status_list_map_id aid st rest]

theorem update_status_list_mem (aid : Int) (st : String) :
    ∀ l : List Alert, ∀ b ∈ (update_status_list aid st l).2,
      b ∈ l ∨ ∃ a ∈ l, a.id = aid ∧ b = { a with status := st }
  | [] => by simp [update_status_list]
  | a :: rest => by
    by_cases ha : a.id = aid
    · intro b hb
      simp only [update_status_list, if_pos ha] at hb
      rcases List.mem_cons.mp hb with rfl | hb'
      · exact Or.inr ⟨a, List.mem_cons_self _ _, ha, rfl⟩
      · exact Or.inl (List.mem_cons_of_mem _ hb')
    · intro b hb
      simp only [update_status_list, if_neg ha] at hb
      rcases List.mem_cons.mp hb with rfl | hb'
      · exact Or.inl (List.mem_cons_self _ _)
      · rcases update_status_list_mem aid st rest b hb' with h | ⟨c, hc, hcid, hcb⟩
        · exact Or.inl (List.mem_cons_of_mem _ h)
        · exact Or.inr ⟨c, List.mem_cons_of_mem _ hc, hcid, hcb⟩

/-! ## Claim C5 -/

/-- C5: for every store state and id, `update_status` returns false and
leaves the whole store unchanged when no alert carries that id (and never
raises), and when one does it returns true, keeps the counter, and replaces
exactly the first matching alert with a copy whose status is the given one,
leaving every other alert and every other field unchanged — so the change
is what any subsequent `get_all`/`get_pending` read sees, since both read
the same alert list. -/
theorem update_status_spec (s : AlertStore) (aid : Int) (st : String) :
    ((∀ a ∈ s.alerts, a.id ≠ aid) → update_status s aid st = (false, s)) ∧
      ((∃ a ∈ s.alerts, a.id = aid) →
        (update_status s aid st).1 = true ∧
        (update_status s aid st).2.id_counter = s.id_counter ∧
        ∃ k, ∃ hk : k < s.alerts.length,
          (s.alerts.get ⟨k, hk⟩).id = aid ∧
          (∀ m (hm : m < s.alerts.length), m < k → (s.alerts.get ⟨m, hm⟩).id ≠ aid) ∧
          (update_status s aid st).2.alerts =
            s.alerts.set k { s.alerts.get ⟨k, hk⟩ with status := st }) := by
  constructor
  · intro hall
    have h := (update_status_list_spec aid st s.alerts).1 hall
    simp [update_status, h]
  · intro hex
    obtain ⟨h1, k, hk, hkid, hfirst, heq⟩ := (update_status_list_spec aid st s.alerts).2 hex
    exact ⟨h1, rfl, k, hk, hkid, hfirst, heq⟩

/-- Witness for C5: a one-alert store; updating the unknown id 2 returns
false and changes nothing, updating the existing id 1 returns true. -/
theorem update_status_spec_witness :
    (update_status ⟨[⟨1, "t", "s", "fire", 0, [], "img", "pending"⟩], 1⟩ 2 "confirmed" =
        (false, ⟨[⟨1, "t", "s", "fire", 0, [], "img", "pending"⟩], 1⟩)) ∧
      (update_status ⟨[⟨1, "t", "s", "fire", 0, [], "img", "pending"⟩], 1⟩ 1 "confirmed").1 = true :=
  ⟨(update_status_spec ⟨[⟨1, "t", "s", "fire", 0, [], "img", "pending"⟩], 1⟩ 2 "confirmed").1
      (by decide),
    ((update_status_spec ⟨[⟨1, "t", "s", "fire", 0, [], "img", "pending"⟩], 1⟩ 1 "confirmed").2
      (by decide)).1⟩

/-! ## Claim C4 -/

theorem range_map_shift (n : Nat) (c : Int) :
    (List.range (n + 1)).map (fun (i : Nat) => c + (i : Int) + 1) =
      (c + 1) :: (List.range n).map (fun (i : Nat) => (c + 1) + (i : Int) + 1) := by
  rw [List.range_succ_eq_map, List.map_cons, List.map_map]
  congr 1
  · simp
  · apply List.map_congr_left
    intro a _
    simp [Function.comp]
    omega

theorem add_many_spec :
    ∀ (args : List AddArgs) (s : AlertStore),
      (add_many s args).id_counter = s.id_counter + (args.length : Int) ∧
      (add_many s args).alerts.map Alert.id =
        s.alerts.map Alert.id ++
          (List.range args.length).map (fun (i : Nat) => s.id_counter + (i : Int) + 1) ∧
      ∀ a ∈ (add_many s args).alerts, a ∈ s.alerts ∨ a.status = "pending"
  | [], s => ⟨by simp [add_many], by simp [add_many], fun a ha => Or.inl ha⟩
  | arg :: rest, s => by
    have hstep : add_many s (arg :: rest) =
        add_many (add_alert s arg.set_order arg.image arg.detections arg.source arg.timestamp).2
          rest := rfl
    have IH := add_many_spec rest
      (add_alert s arg.set_order arg.image arg.detections arg.source arg.timestamp).2
    obtain ⟨ihc, ihids, ihmem⟩ := IH
    have hc : (add_alert s arg.set_order arg.image arg.detections arg.source
        arg.timestamp).2.id_counter = s.id_counter + 1 := rfl
    refine ⟨?_, ?_, ?_⟩
    · rw [hstep, ihc, hc, List.length_cons]
      push_cast
      omega
    · rw [hstep, ihids, hc]
      have hids1 : (add_alert s arg.set_order arg.image arg.detections arg.source
          arg.timestamp).2.alerts.map Alert.id = s.alerts.map Alert.id ++ [s.id_counter + 1] := by
        simp [add_alert]
      rw [hids1, List.length_cons, range_map_shift, ← List.append_cons]
    · intro a ha
      rw [hstep] at ha
      rcases ihmem a ha with hmem | hpend
      · rcases List.mem_append.mp hmem with h | h
        · exact Or.inl h
        · right
          simp only [List.mem_singleton] at h
          rw [h]
      · exact Or.inr hpend

/-- C4: starting from a fresh store, any sequence of N `add_alert` calls
leaves exactly N alerts whose ids are `1, 2, …, N` in creation order —
pairwise distinct and strictly increasing — each alert is created with
status `"pending"`, and the id counter ends at N and never decreases at any
prefix of the run, so no id is ever reused. -/
theorem add_many_from_empty (args : List AddArgs) :
    (add_many emptyStore args).alerts.length = args.length ∧
    (add_many emptyStore args).alerts.map Alert.id =
      (List.range args.length).map (fun (i : Nat) => (i : Int) + 1) ∧
    List.Pairwise (· < ·) ((add_many emptyStore args).alerts.map Alert.id) ∧
    (∀ a ∈ (add_many emptyStore args).alerts, a.status = "pending") ∧
    (add_many emptyStore args).id_counter = (args.length : Int) ∧
    ∀ n : Nat, (add_many emptyStore (args.take n)).id_counter ≤
      (add_many emptyStore args).id_counter := by
  obtain ⟨hc, hids, hmem⟩ := add_many_spec args emptyStore
  have hids' : (add_many emptyStore args).alerts.map Alert.id =
      (List.range args.length).map (fun (i : Nat) => (i : Int) + 1) := by
    rw [hids]
    have : emptyStore.alerts.map Alert.id = [] := rfl
    rw [this, List.nil_append]
    apply List.map_congr_left
    intro a _
    show emptyStore.id_counter + (a : Int) + 1 = (a : Int) + 1
    simp [emptyStore]
  refine ⟨?_, hids', ?_, ?_, ?_, ?_⟩
  · have := congrArg List.length hids'
    simpa using this
  · rw [hids', List.pairwise_map]
    refine (List.pairwise_lt_range args.length).imp ?_
    intro a b h
    omega
  · intro a ha
    rcases hmem a ha with h | h
    · exact absurd h (List.not_mem_nil a)
    · exact h
  · rw [hc]
    simp [emptyStore]
  · intro n
    obtain ⟨hcn, -, -⟩ := add_many_spec (args.take n) emptyStore
    rw [hcn, hc]
    simp only [List.length_take, emptyStore]
    push_cast
    omega

/-! ## Claim C9 -/

/-- C9 counterexample: with one stored alert, `get_all` at limit 0 returns
the whole (reversed) alert list — the Python slice `alerts[-0:]` is
`alerts[0:]` — and not the empty sequence the claim states for limit 0. -/
theorem get_all_zero_counterexample :
    get_all ⟨[⟨1, "t", "s", "fire", 0, [], "img", "pending"⟩], 1⟩ 0 =
        [⟨1, "t", "s", "fire", 0, [], "img", "pending"⟩] ∧
      get_all ⟨[⟨1, "t", "s", "fire", 0, [], "img", "pending"⟩], 1⟩ 0 ≠ [] := by
  constructor
  · rfl
  · decide

/-- C9 (amended): for every store state and positive limit, `get_all`
returns exactly the `min limit total` most recently created alerts,
most-recent-first; the dashboard's all-alerts read uses the default limit
50; with limit 0 the code instead returns all alerts most-recent-first
(Python `alerts[-0:]` is the whole list). -/
theorem get_all_spec (s : AlertStore) (limit : Nat) (h : 0 < limit) :
    get_all s limit = s.alerts.reverse.take limit ∧
      (get_all s limit).length = min limit s.alerts.length ∧
      get_alerts_route s "all" = get_all s get_all_default_limit ∧
      get_all_default_limit = 50 ∧
      get_all s 0 = s.alerts.reverse := by
  have hmain : get_all s limit = s.alerts.reverse.take limit := by
    unfold get_all
    rw [if_neg (by omega)]
    rcases le_or_lt limit s.alerts.length with hle | hlt
    · rw [List.reverse_drop]
      congr 1
      omega
    · rw [Nat.sub_eq_zero_of_le (le_of_lt hlt), List.drop_zero,
        List.take_of_length_le (by rw [List.length_reverse]; omega)]
  refine ⟨hmain, ?_, ?_, rfl, ?_⟩
  · rw [hmain, List.length_take, List.length_reverse]
  · unfold get_alerts_route
    rw [if_neg (by decide)]
  · unfold get_all
    rw [if_pos rfl]

/-- Witness for C9 (amended) at limit 2 on a one-alert store. -/
theorem get_all_spec_witness :
    0 < 2 ∧
      get_all ⟨[⟨1, "t", "s", "fire", 0, [], "img", "pending"⟩], 1⟩ 2 =
        (⟨[⟨1, "t", "s", "fire", 0, [], "img", "pending"⟩], 1⟩ :
          AlertStore).alerts.reverse.take 2 :=
  ⟨by decide,
    (get_all_spec ⟨[⟨1, "t", "s", "fire", 0, [], "img", "pending"⟩], 1⟩ 2 (by decide)).1⟩

/-! ## Claim C7 -/

theorem foldl_max_mem_le (key : String → Nat) :
    ∀ (xs : List String) (x : String),
      (xs.foldl (fun b a => if key b < key a then a else b) x) ∈ x :: xs ∧
        ∀ y ∈ x :: xs, key y ≤ key (xs.foldl (fun b a => if key b < key a then a else b) x)
  | [], x => by
    refine ⟨List.mem_cons_self _ _, ?_⟩
    intro y hy
    rcases List.mem_cons.mp hy with rfl | hy'
    · exact le_refl _
    · exact absurd hy' (List.not_mem_nil y)
  | z :: zs, x => by
    have IH := foldl_max_mem_le key zs (if key x < key z then z else x)
    have hfold : (z :: zs).foldl (fun b a => if key b < key a then a else b) x =
        zs.foldl (fun b a => if key b < key a then a else b)
          (if key x < key z then z else x) := rfl
    constructor
    · rw [hfold]
      by_cases hxz : key x < key z
      · rw [if_pos hxz] at IH ⊢
        rcases List.mem_cons.mp IH.1 with h | h
        · rw [h]
          exact List.mem_cons_of_mem _ (List.mem_cons_self _ _)
        · exact List.mem_cons_of_mem _ (List.mem_cons_of_mem _ h)
      · rw [if_neg hxz] at IH ⊢
        rcases List.mem_cons.mp IH.1 with h | h
        · rw [h]
          exact List.mem_cons_self _ _
        · exact List.mem_cons_of_mem _ (List.mem_cons_of_mem _ h)
    · intro y hy
      rw [hfold]
      have hhead : key (if key x < key z then z else x) ≤
          key (zs.foldl (fun b a => if key b < key a then a else b)
            (if key x < key z then z else x)) :=
        IH.2 _ (List.mem_cons_self _ _)
      rcases List.mem_cons.mp hy with rfl | hy'
      · refine le_trans ?_ hhead
        by_cases hxz : key y < key z
        · rw [if_pos hxz]
          exact le_of_lt hxz
        · rw [if_neg hxz]
      · rcases List.mem_cons.mp hy' with rfl | hy''
        · refine le_trans ?_ hhead
          by_cases hxz : key x < key y
          · rw [if_pos hxz]
          · rw [if_neg hxz]
            omega
        · exact IH.2 y (List.mem_cons_of_mem _ hy'')

theorem primary_label_is_mode (labels set_order : List String)
    (hne : labels ≠ []) (henum : ValidEnum set_order labels) :
    primary_label set_order labels ∈ labels ∧
      ∀ x ∈ labels, labels.count x ≤ labels.count (primary_label set_order labels) := by
  obtain ⟨l0, hl0⟩ := List.exists_mem_of_ne_nil labels hne
  have hso_ne : set_order ≠ [] := by
    intro h
    rw [h] at henum
    exact absurd ((henum.2 l0).mpr hl0) (List.not_mem_nil l0)
  obtain ⟨x, xs, rfl⟩ := List.exists_cons_of_ne_nil hso_ne
  have hm := foldl_max_mem_le (fun b => labels.count b) xs x
  have hpl : primary_label (x :: xs) labels =
      xs.foldl (fun b a => if labels.count b < labels.count a then a else b) x := rfl
  rw [hpl]
  constructor
  · exact (henum.2 _).mp hm.1
  · intro y hy
    exact hm.2 y ((henum.2 y).mpr hy)

/-- C7 counterexample: one `"a"` detection and one `"b"` detection tie in
frequency.  `["b", "a"]` is a legitimate iteration order of the set
`{"a", "b"}` (Python string hashing is randomized, so either order occurs),
and under it `add_alert` stores primary label `"b"`, whereas the claim's
first-seen-in-list tie-break demands `"a"`. -/
theorem primary_label_tiebreak_counterexample :
    ValidEnum ["b", "a"]
        (([⟨"a", "0.90"⟩, ⟨"b", "0.80"⟩] : List Detection).map Detection.label) ∧
      (add_alert emptyStore ["b", "a"] "img"
          [⟨"a", "0.90"⟩, ⟨"b", "0.80"⟩] "src" "ts").2.alerts.map Alert.label = ["b"] ∧
      first_seen_mode_spec
        (([⟨"a", "0.90"⟩, ⟨"b", "0.80"⟩] : List Detection).map Detection.label) = "a" ∧
      ("b" : String) ≠ "a" := by
  refine ⟨by decide, rfl, rfl, by decide⟩

/-- C7 (amended): `add_alert` appends exactly one alert; when the detection
list is empty its stored primary label is the literal `"fire"`, and when it
is non-empty the stored primary label is a most frequent label of the
detections (a member of the label list whose multiplicity is maximal) for
every possible set iteration order — but which maximal label wins a tie
depends on that order, not on first-seen-in-list position. -/
theorem stored_primary_label (s : AlertStore) (so : List String) (img : String)
    (dets : List Detection) (src ts : String)
    (henum : dets ≠ [] → ValidEnum so (dets.map Detection.label)) :
    ∃ a : Alert,
      (add_alert s so img dets src ts).2.alerts = s.alerts ++ [a] ∧
        (dets = [] → a.label = "fire") ∧
        (dets ≠ [] →
          a.label ∈ dets.map Detection.label ∧
            ∀ x ∈ dets.map Detection.label,
              (dets.map Detection.label).count x ≤
                (dets.map Detection.label).count a.label) := by
  refine ⟨_, rfl, ?_, ?_⟩
  · intro h
    simp [h]
  · intro h
    have hmaps : dets.map Detection.label ≠ [] := by
      simpa using h
    have hmode := primary_label_is_mode (dets.map Detection.label) so hmaps (henum h)
    have hie : dets.isEmpty = false := List.isEmpty_eq_false.mpr h
    simpa [hie] using hmode

/-- Witness for C7 (amended): two `"a"` detections and one `"b"` detection
under set order `["b", "a"]`. -/
theorem stored_primary_label_witness :
    (([⟨"a", "0.90"⟩, ⟨"a", "0.80"⟩, ⟨"b", "0.70"⟩] : List Detection) ≠ [] →
        ValidEnum ["b", "a"]
          (([⟨"a", "0.90"⟩, ⟨"a", "0.80"⟩, ⟨"b", "0.70"⟩] :
            List Detection).map Detection.label)) ∧
      ∃ a : Alert,
        (add_alert emptyStore ["b", "a"] "img"
            [⟨"a", "0.90"⟩, ⟨"a", "0.80"⟩, ⟨"b", "0.70"⟩] "src" "ts").2.alerts =
          emptyStore.alerts ++ [a] ∧
          (([⟨"a", "0.90"⟩, ⟨"a", "0.80"⟩, ⟨"b", "0.70"⟩] : List Detection) = [] →
            a.label = "fire") ∧
          (([⟨"a", "0.90"⟩, ⟨"a", "0.80"⟩, ⟨"b", "0.70"⟩] : List Detection) ≠ [] →
            a.label ∈ ([⟨"a", "0.90"⟩, ⟨"a", "0.80"⟩, ⟨"b", "0.70"⟩] :
                List Detection).map Detection.label ∧
              ∀ x ∈ ([⟨"a", "0.90"⟩, ⟨"a", "0.80"⟩, ⟨"b", "0.70"⟩] :
                  List Detection).map Detection.label,
                (([⟨"a", "0.90"⟩, ⟨"a", "0.80"⟩, ⟨"b", "0.70"⟩] :
                    List Detection).map Detection.label).count x ≤
                  (([⟨"a", "0.90"⟩, ⟨"a", "0.80"⟩, ⟨"b", "0.70"⟩] :
                      List Detection).map Detection.label).count a.label) :=
  ⟨by decide,
    stored_primary_label emptyStore ["b", "a"] "img"
      [⟨"a", "0.90"⟩, ⟨"a", "0.80"⟩, ⟨"b", "0.70"⟩] "src" "ts" (by decide)⟩

/-! ## Claim C10 -/

theorem splitFirst_append (sep : Char) :
    ∀ (l1 : List Char), sep ∉ l1 → ∀ l2 : List Char,
      splitFirst sep (l1 ++ sep :: l2) = some (l1, l2)
  | [], _, l2 => by simp [splitFirst]
  | c :: cs, h, l2 => by
    have hc : ¬ c = sep := by
      intro hcs
      exact h (hcs ▸ List.mem_cons_self c cs)
    have hcs : sep ∉ cs := fun hm => h (List.mem_cons_of_mem c hm)
    simp only [List.cons_append, splitFirst, if_neg hc]
    rw [List.append_eq, splitFirst_append sep cs hcs l2]

theorem handle_callback_data_eq_none (s : AlertStore) (data : String)
    (h : splitFirst '_' data.toList = none) :
    handle_callback_data s data = (s, none) := by
  unfold handle_callback_data
  rw [h]

theorem handle_callback_data_eq_some (s : AlertStore) (data : String)
    (l1 l2 : List Char) (h : splitFirst '_' data.toList = some (l1, l2)) :
    handle_callback_data s data =
      (match py_int_of_string (String.mk l2) with
        | none => (s, none)
        | some alert_id =>
          ((handle_telegram_callback s alert_id (String.mk l1)).1,
            some (alert_id, (handle_telegram_callback s alert_id (String.mk l1)).2))) := by
  unfold handle_callback_data
  rw [h]

/-- C10: for every well-formed ingress token `<action>_<alertId>` with an
integer alert id (and no underscore inside the action, since the code splits
at the first underscore), the registered callback applies status
`"confirmed"` to that alert when the action is exactly `"confirm"`, and
applies `"rejected"` for every other action string — such tokens are handled
through `update_status` on the parsed id, never dropped. -/
theorem handle_callback_token (s : AlertStore) (action digits : String) (aid : Int)
    (hact : '_' ∉ action.toList) (hid : py_int_of_string digits = some aid) :
    handle_callback_data s (action ++ "_" ++ digits) =
      ((update_status s aid
          (if action = "confirm" then "confirmed" else "rejected")).2,
        some (aid, (update_status s aid
          (if action = "confirm" then "confirmed" else "rejected")).1)) := by
  have hlist : (action ++ "_" ++ digits).toList = action.toList ++ '_' :: digits.toList := by
    simp [String.toList, String.data_append]
  have hsplit : splitFirst '_' ((action ++ "_" ++ digits).toList) =
      some (action.toList, digits.toList) := by
    rw [hlist]
    exact splitFirst_append '_' action.toList hact digits.toList
  have hdig : String.mk digits.toList = digits := rfl
  have hactstr : String.mk action.toList = action := rfl
  rw [handle_callback_data_eq_some s (action ++ "_" ++ digits)
    action.toList digits.toList hsplit, hdig, hactstr, hid]
  rfl

/-- Witness for C10: the non-standard action `"foo"` with alert id 7 on a
store holding alert 7 — the alert is updated (to `"rejected"`), not
dropped. -/
theorem handle_callback_token_witness :
    ('_' ∉ ("foo" : String).toList) ∧ py_int_of_string "7" = some 7 ∧
      handle_callback_data ⟨[⟨7, "t", "s", "fire", 0, [], "img", "pending"⟩], 7⟩
          ("foo" ++ "_" ++ "7") =
        ((update_status ⟨[⟨7, "t", "s", "fire", 0, [], "img", "pending"⟩], 7⟩ 7
            (if ("foo" : String) = "confirm" then "confirmed" else "rejected")).2,
          some (7, (update_status ⟨[⟨7, "t", "s", "fire", 0, [], "img", "pending"⟩], 7⟩ 7
            (if ("foo" : String) = "confirm" then "confirmed" else "rejected")).1)) :=
  ⟨by decide, by decide,
    handle_callback_token ⟨[⟨7, "t", "s", "fire", 0, [], "img", "pending"⟩], 7⟩
      "foo" "7" 7 (by decide) (by decide)⟩

/-! ## Claim C6 -/

theorem mem_add_alert (s : AlertStore) (so : List String) (img : String)
    (dets : List Detection) (src ts : String) (a : Alert)
    (ha : a ∈ (add_alert s so img dets src ts).2.alerts) :
    a ∈ s.alerts ∨ (a.id = s.id_counter + 1 ∧ a.status = "pending") := by
  rcases List.mem_append.mp ha with h | h
  · exact Or.inl h
  · right
    simp only [List.mem_singleton] at h
    rw [h]
    exact ⟨rfl, rfl⟩

theorem storeInv_update (s : AlertStore) (aid : Int) (st : String)
    (hst : st = "confirmed" ∨ st = "rejected") (hinv : StoreInv s) :
    StoreInv (update_status s aid st).2 := by
  obtain ⟨hidb, hnd, hstat⟩ := hinv
  refine ⟨?_, ?_, ?_⟩
  · intro a ha
    rcases update_status_list_mem aid st s.alerts a ha with h | ⟨c, hc, -, rfl⟩
    · exact hidb a h
    · exact hidb c hc
  · show ((update_status_list aid st s.alerts).2.map Alert.id).Nodup
    rw [update_status_list_map_id]
    exact hnd
  · intro a ha
    rcases update_status_list_mem aid st s.alerts a ha with h | ⟨c, hc, -, rfl⟩
    · exact hstat a h
    · rcases hst with h' | h'
      · exact Or.inr (Or.inl h')
      · exact Or.inr (Or.inr h')

theorem idResolved_update (s : AlertStore) (target : Int) (st : String)
    (hst : st ≠ "pending") (aid : Int) (h : IdResolved s aid) :
    IdResolved (update_status s target st).2 aid := by
  intro a ha haid
  rcases update_status_list_mem target st s.alerts a ha with hmem | ⟨c, hc, -, rfl⟩
  · exact h a hmem haid
  · exact hst

theorem storeInv_add (s : AlertStore) (so : List String) (img : String)
    (dets : List Detection) (src ts : String) (hinv : StoreInv s) :
    StoreInv (add_alert s so img dets src ts).2 := by
  obtain ⟨hidb, hnd, hstat⟩ := hinv
  refine ⟨?_, ?_, ?_⟩
  · intro a ha
    rcases mem_add_alert s so img dets src ts a ha with h | ⟨hid, -⟩
    · have := hidb a h
      show a.id ≤ s.id_counter + 1
      omega
    · show a.id ≤ s.id_counter + 1
      omega
  · show ((s.alerts ++ [_]).map Alert.id).Nodup
    rw [List.map_append, List.nodup_append]
    refine ⟨hnd, List.nodup_singleton _, ?_⟩
    intro x hx hx'
    obtain ⟨b, hb, rfl⟩ := List.mem_map.mp hx
    have hble := hidb b hb
    simp only [List.map_cons, List.map_nil, List.mem_singleton] at hx'
    show False
    rw [hx'] at hble
    omega
  · intro a ha
    rcases mem_add_alert s so img dets src ts a ha with h | ⟨-, hp⟩
    · exact hstat a h
    · exact Or.inl hp

theorem idResolved_add (s : AlertStore) (so : List String) (img : String)
    (dets : List Detection) (src ts : String) (aid : Int)
    (hle : aid ≤ s.id_counter) (h : IdResolved s aid) :
    IdResolved (add_alert s so img dets src ts).2 aid := by
  intro a ha haid
  rcases mem_add_alert s so img dets src ts a ha with hmem | ⟨hid, -⟩
  · exact h a hmem haid
  · rw [haid] at hid
    omega

theorem handle_callback_data_store (s : AlertStore) (data : String) :
    (handle_callback_data s data).1 = s ∨
      ∃ aid st, (st = "confirmed" ∨ st = "rejected") ∧
        (handle_callback_data s data).1 = (update_status s aid st).2 := by
  rcases hsp : splitFirst '_' data.toList with _ | ⟨l1, l2⟩
  · left
    rw [handle_callback_data_eq_none s data hsp]
  · rcases hpi : py_int_of_string (String.mk l2) with _ | aid
    · left
      rw [handle_callback_data_eq_some s data l1 l2 hsp, hpi]
    · right
      refine ⟨aid, if String.mk l1 = "confirm" then "confirmed" else "rejected", ?_, ?_⟩
      · by_cases h : String.mk l1 = "confirm"
        · left
          rw [if_pos h]
        · right
          rw [if_neg h]
      · rw [handle_callback_data_eq_some s data l1 l2 hsp, hpi]
        rfl

theorem update_alert_route_cases (s : AlertStore) (aid : Int) (bst : Option String) :
    (update_alert_route s aid bst).1 = s ∨
      ∃ st, (st = "confirmed" ∨ st = "rejected") ∧
        (update_alert_route s aid bst).1 = (update_status s aid st).2 := by
  cases bst with
  | none => exact Or.inl rfl
  | some st =>
    have hroute : update_alert_route s aid (some st) =
        (if st = "confirmed" ∨ st = "rejected" then
          ((update_status s aid st).2,
            if (update_status s aid st).1 then 200 else 404)
        else (s, 400)) := rfl
    by_cases h : st = "confirmed" ∨ st = "rejected"
    · right
      exact ⟨st, h, by rw [hroute, if_pos h]⟩
    · left
      rw [hroute, if_neg h]

theorem storeInv_apply_op (s : AlertStore) (op : SysOp) (hinv : StoreInv s) :
    StoreInv (apply_sys_op s op) ∧ s.id_counter ≤ (apply_sys_op s op).id_counter := by
  cases op with
  | add so img dets src ts =>
    refine ⟨storeInv_add s so img dets src ts hinv, ?_⟩
    show s.id_counter ≤ s.id_counter + 1
    omega
  | webUpdate aid bst =>
    rcases update_alert_route_cases s aid bst with heq | ⟨st, hst, heq⟩
    · rw [apply_sys_op, heq]
      exact ⟨hinv, le_refl _⟩
    · rw [apply_sys_op, heq]
      exact ⟨storeInv_update s aid st hst hinv, le_refl _⟩
  | botCallback data =>
    rcases handle_callback_data_store s data with heq | ⟨aid, st, hst, heq⟩
    · rw [apply_sys_op, heq]
      exact ⟨hinv, le_refl _⟩
    · rw [apply_sys_op, heq]
      exact ⟨storeInv_update s aid st hst hinv, le_refl _⟩

theorem idResolved_apply_op (s : AlertStore) (aid : Int) (op : SysOp)
    (hle : aid ≤ s.id_counter) (h : IdResolved s aid) :
    IdResolved (apply_sys_op s op) aid := by
  cases op with
  | add so img dets src ts => exact idResolved_add s so img dets src ts aid hle h
  | webUpdate target bst =>
    rcases update_alert_route_cases s target bst with heq | ⟨st, hst, heq⟩
    · rw [apply_sys_op, heq]
      exact h
    · rw [apply_sys_op, heq]
      refine idResolved_update s target st ?_ aid h
      rcases hst with h' | h' <;> rw [h'] <;> decide
  | botCallback data =>
    rcases handle_callback_data_store s data with heq | ⟨target, st, hst, heq⟩
    · rw [apply_sys_op, heq]
      exact h
    · rw [apply_sys_op, heq]
      refine idResolved_update s target st ?_ aid h
      rcases hst with h' | h' <;> rw [h'] <;> decide

theorem apply_sys_op_counter_mono (s : AlertStore) (op : SysOp) :
    s.id_counter ≤ (apply_sys_op s op).id_counter := by
  cases op with
  | add so img dets src ts =>
    show s.id_counter ≤ s.id_counter + 1
    omega
  | webUpdate aid bst =>
    rcases update_alert_route_cases s aid bst with heq | ⟨st, -, heq⟩
    · rw [apply_sys_op, heq]
    · rw [apply_sys_op, heq]
      exact le_refl _
  | botCallback data =>
    rcases handle_callback_data_store s data with heq | ⟨aid, st, -, heq⟩
    · rw [apply_sys_op, heq]
    · rw [apply_sys_op, heq]
      exact le_refl _

theorem resolved_apply_ops :
    ∀ (ops : List SysOp) (s : AlertStore) (aid : Int),
      aid ≤ s.id_counter → IdResolved s aid →
      IdResolved (apply_sys_ops s ops) aid
  | [], _, _, _, h => h
  | op :: rest, s, aid, hle, h => by
    have hstep : apply_sys_ops s (op :: rest) = apply_sys_ops (apply_sys_op s op) rest := rfl
    rw [hstep]
    exact resolved_apply_ops rest (apply_sys_op s op) aid
      (le_trans hle (apply_sys_op_counter_mono s op))
      (idResolved_apply_op s aid op hle h)

theorem storeInv_apply_ops :
    ∀ (ops : List SysOp) (s : AlertStore), StoreInv s → StoreInv (apply_sys_ops s ops)
  | [], _, h => h
  | op :: rest, s, h => by
    have hstep : apply_sys_ops s (op :: rest) = apply_sys_ops (apply_sys_op s op) rest := rfl
    rw [hstep]
    exact storeInv_apply_ops rest (apply_sys_op s op) (storeInv_apply_op s op h).1

theorem idResolved_of_mem (s : AlertStore) (hinv : StoreInv s) (a : Alert)
    (ha : a ∈ s.alerts) (hstat : a.status ≠ "pending") : IdResolved s a.id := by
  intro b hb hbid
  have hba : b = a :=
    List.inj_on_of_nodup_map hinv.2.1 hb ha hbid
  rw [hba]
  exact hstat

/-- C6 counterexample: the store itself performs no status validation —
called directly, `update_status` happily records the string `"pending"`
(returning true), so after confirming alert 1 and then updating it back to
`"pending"`, `get_pending` again contains an alert whose status was changed
by prior `updateStatus` calls; the `{confirmed, rejected}` membership check
the claim attributes to the store lives only in the HTTP route. -/
theorem store_validation_counterexample :
    (update_status (update_status
        (add_alert emptyStore [] "img" [] "src" "ts").2 1 "confirmed").2 1 "pending").1 = true ∧
      ∃ b ∈ get_pending (update_status (update_status
          (add_alert emptyStore [] "img" [] "src" "ts").2 1 "confirmed").2 1 "pending").2,
        b.id = 1 := by
  decide

/-- C6 (amended): `AlertStore.update_status` itself stores any status string
unvalidated; the `{confirmed, rejected}` membership is enforced by the
system's ingress points — the HTTP route rejects other bodies without
touching the store, and the Telegram callback maps every action to
`"confirmed"` or `"rejected"` — while `"pending"` is only ever assigned at
creation.  Consequently, over any sequence of system operations (adds,
dashboard updates, bot callbacks), every non-pending status is `"confirmed"`
or `"rejected"`, and once some alert's status has been changed away from
`"pending"`, no later sequence of system operations ever makes `get_pending`
include that alert's id again. -/
theorem ingress_status_discipline (ops1 ops2 : List SysOp) (aid : Int)
    (h : ∃ a ∈ (apply_sys_ops emptyStore ops1).alerts,
      a.id = aid ∧ a.status ≠ "pending") :
    (∀ a ∈ (apply_sys_ops emptyStore ops1).alerts,
        a.status ≠ "pending" → a.status = "confirmed" ∨ a.status = "rejected") ∧
      ∀ b ∈ get_pending (apply_sys_ops (apply_sys_ops emptyStore ops1) ops2),
        b.id ≠ aid := by
  have hinv1 : StoreInv (apply_sys_ops emptyStore ops1) :=
    storeInv_apply_ops ops1 emptyStore
      ⟨fun a ha => absurd ha (List.not_mem_nil a),
        List.nodup_nil, fun a ha => absurd ha (List.not_mem_nil a)⟩
  obtain ⟨a, ha, haid, hstat⟩ := h
  constructor
  · intro b hb hbstat
    rcases hinv1.2.2 b hb with h' | h' | h'
    · exact absurd h' hbstat
    · exact Or.inl h'
    · exact Or.inr h'
  · have hres : IdResolved (apply_sys_ops emptyStore ops1) aid := by
      rw [← haid]
      exact idResolved_of_mem _ hinv1 a ha hstat
    have hle : aid ≤ (apply_sys_ops emptyStore ops1).id_counter := by
      rw [← haid]
      exact hinv1.1 a ha
    have hres2 := resolved_apply_ops ops2 (apply_sys_ops emptyStore ops1) aid hle hres
    intro b hb hbid
    obtain ⟨hbmem, hbpend⟩ := List.mem_filter.mp hb
    exact hres2 b hbmem hbid (beq_iff_eq.mp hbpend)

/-- Witness for C6 (amended): add one alert, confirm it through the
dashboard route, then add another alert; the confirmed alert's id 1 never
reappears in `get_pending`. -/
theorem ingress_status_discipline_witness :
    (∃ a ∈ (apply_sys_ops emptyStore [SysOp.add [] "img" [] "src" "ts",
        SysOp.webUpdate 1 (some "confirmed")]).alerts, a.id = 1 ∧ a.status ≠ "pending") ∧
      ((∀ a ∈ (apply_sys_ops emptyStore [SysOp.add [] "img" [] "src" "ts",
          SysOp.webUpdate 1 (some "confirmed")]).alerts,
          a.status ≠ "pending" → a.status = "confirmed" ∨ a.status = "rejected") ∧
        ∀ b ∈ get_pending (apply_sys_ops (apply_sys_ops emptyStore
            [SysOp.add [] "img" [] "src" "ts", SysOp.webUpdate 1 (some "confirmed")])
            [SysOp.add [] "img2" [] "src" "ts"]),
          b.id ≠ 1) :=
  ⟨by decide,
    ingress_status_discipline
      [SysOp.add [] "img" [] "src" "ts", SysOp.webUpdate 1 (some "confirmed")]
      [SysOp.add [] "img2" [] "src" "ts"] 1 (by decide)⟩

end TheEye
